import Mathlib

/-!
# Verification of the `kentik_image_cache` object cache

Shallow embedding of the repository's persistent object cache
(`object_cache/local_file_cache.py`, `object_cache/cache_entry.py`,
`object_cache/types.py`) and of the identifier codec of `main.py` /
`app/main.py`, together with proofs about the claims of the
specification.

Modelling conventions:
* A file's raw content is a `List Nat` of byte values.
* A directory is an association list `List (String × List Nat)` mapping a
  file name to its content; real directories never hold two files of the
  same name, which is captured by the `Nodup` hypotheses where needed.
* Python exceptions escaping a function are modelled with `Except`
  (`Except.error` = the call raises) or `Option` (`none` = the call
  raises) depending on whether the escaping state matters.
-/

/-- `CacheEntryType` of `object_cache/cache_entry.py`: the category tag
stored in the first line of an entry file.  The `value` strings are
`"api_request"`, `"api_error"`, `"image"` and `"invalid"`. -/
inductive CacheEntryType where
  | REQUEST
  | ERROR_MSG
  | IMAGE
  | INVALID
deriving DecidableEq, Repr

/-- `EntryStatus` of `object_cache/types.py`. -/
inductive EntryStatus where
  | ACTIVE
  | PENDING
deriving DecidableEq, Repr

/-- `CreationStatus` of `object_cache/types.py`. -/
inductive CreationStatus where
  | CREATED
  | EXISTING
deriving DecidableEq, Repr

/-- `ActivationStatus` of `object_cache/types.py`. -/
inductive ActivationStatus where
  | SUCCESS
  | FAILED
deriving DecidableEq, Repr

/-- UTF-8 (here: ASCII) bytes of `CacheEntryType.value`, the on-disk
category tag written by `CacheEntry.write` and compared against by
`CacheEntry.__init__`. -/
def tagBytes : CacheEntryType → List Nat
  | .REQUEST => [97, 112, 105, 95, 114, 101, 113, 117, 101, 115, 116] -- "api_request"
  | .ERROR_MSG => [97, 112, 105, 95, 101, 114, 114, 111, 114]         -- "api_error"
  | .IMAGE => [105, 109, 97, 103, 101]                                -- "image"
  | .INVALID => [105, 110, 118, 97, 108, 105, 100]                    -- "invalid"

/-- The bytes a file holds after `CacheEntry.write(entry_type, data)`:
the tag line `f"{self._type.value}\n".encode()` followed by the raw
payload bytes (`cache_entry.py:85-98`). -/
def encodeFile (t : CacheEntryType) (data : List Nat) : List Nat :=
  tagBytes t ++ 10 :: data

/-- Python `IO.readline()` on raw bytes: the first line up to and
including the first newline byte, and the remaining bytes. -/
def readLine : List Nat → List Nat × List Nat
  | [] => ([], [])
  | b :: t =>
    if b = 10 then ([10], t)
    else
      let r := readLine t
      (b :: r.1, r.2)

/-- ASCII whitespace bytes removed by Python `bytes.strip()`. -/
def isSpaceByte (b : Nat) : Bool :=
  b = 9 || b = 10 || b = 11 || b = 12 || b = 13 || b = 32

/-- Python `bytes.strip()`: removes leading and trailing ASCII
whitespace. -/
def stripBytes (l : List Nat) : List Nat :=
  ((l.dropWhile isSpaceByte).reverse.dropWhile isSpaceByte).reverse

/-- Whether `b` is a UTF-8 continuation byte (`0x80`–`0xBF`). -/
def isContinuationByte (b : Nat) : Bool :=
  0x80 ≤ b && b ≤ 0xBF

/-- Strict UTF-8 validity of a byte sequence, as checked by Python
`bytes.decode()` (rejecting overlong forms and surrogates).
`decode` raises `UnicodeDecodeError` exactly when this is `false`. -/
def validUtf8 : List Nat → Bool
  | [] => true
  | b :: rest =>
    if b ≤ 0x7F then validUtf8 rest
    else if 0xC2 ≤ b && b ≤ 0xDF then
      match rest with
      | c :: r => isContinuationByte c && validUtf8 r
      | [] => false
    else if b = 0xE0 then
      match rest with
      | c1 :: c2 :: r => (0xA0 ≤ c1 && c1 ≤ 0xBF) && isContinuationByte c2 && validUtf8 r
      | _ => false
    else if (0xE1 ≤ b && b ≤ 0xEC) || b = 0xEE || b = 0xEF then
      match rest with
      | c1 :: c2 :: r => isContinuationByte c1 && isContinuationByte c2 && validUtf8 r
      | _ => false
    else if b = 0xED then
      match rest with
      | c1 :: c2 :: r => (0x80 ≤ c1 && c1 ≤ 0x9F) && isContinuationByte c2 && validUtf8 r
      | _ => false
    else if b = 0xF0 then
      match rest with
      | c1 :: c2 :: c3 :: r =>
        (0x90 ≤ c1 && c1 ≤ 0xBF) && isContinuationByte c2 && isContinuationByte c3 && validUtf8 r
      | _ => false
    else if 0xF1 ≤ b && b ≤ 0xF3 then
      match rest with
      | c1 :: c2 :: c3 :: r =>
        isContinuationByte c1 && isContinuationByte c2 && isContinuationByte c3 && validUtf8 r
      | _ => false
    else if b = 0xF4 then
      match rest with
      | c1 :: c2 :: c3 :: r =>
        (0x80 ≤ c1 && c1 ≤ 0x8F) && isContinuationByte c2 && isContinuationByte c3 && validUtf8 r
      | _ => false
    else false

/-- The category recognition of `CacheEntry.__init__`
(`cache_entry.py:47-53`): the stripped first line is compared against the
three recognized tag values; anything else keeps the initial `INVALID`.
Comparison of the decoded strings equals byte comparison because strict
UTF-8 decoding is injective. -/
def parseHeader (h : List Nat) : CacheEntryType :=
  if h = tagBytes .REQUEST then .REQUEST
  else if h = tagBytes .ERROR_MSG then .ERROR_MSG
  else if h = tagBytes .IMAGE then .IMAGE
  else .INVALID

/-- Reading an entry file as `CacheEntry.__init__` does
(`cache_entry.py:44-56`): `readline().strip().decode()` to obtain the
category tag, the remaining bytes become `_data`.  Returns `none` when
`decode` raises `UnicodeDecodeError` (the first line is not valid UTF-8),
which is *not* caught by the `except IOError` handler. -/
def readEntry (file : List Nat) : Option (CacheEntryType × List Nat) :=
  let line := readLine file
  let header := stripBytes line.1
  if validUtf8 header then some (parseHeader header, line.2) else none

/-- In-memory view of a located cache entry, as built by
`ObjectCache.get_entry`: status from the directory the file was found in,
type and data parsed from the file content. -/
structure CacheEntry where
  status : EntryStatus
  type : CacheEntryType
  data : List Nat
deriving DecidableEq, Repr

/-- The pair of directories owned by `ObjectCache`: `pending` and
`active`, each a mapping file-name ↦ file-bytes. -/
structure Cache where
  pending : List (String × List Nat)
  active : List (String × List Nat)
deriving DecidableEq, Repr

/-- Directory lookup: the content of the file named `id`, if present. -/
def flookup : List (String × List Nat) → String → Option (List Nat)
  | [], _ => none
  | (k, v) :: t, id => if k = id then some v else flookup t id

/-- The file names of a directory. -/
def dirNames (l : List (String × List Nat)) : List String :=
  l.map Prod.fst

/-- Removing every binding of `id` from a directory (the effect of
deleting the file). -/
def fsEraseAll (l : List (String × List Nat)) (id : String) : List (String × List Nat) :=
  l.filter (fun e => e.1 ≠ id)

/-- `open(path, "wb")` followed by a full write: creates the file or
truncates an existing one; either way the directory afterwards maps `id`
to exactly `v`. -/
def fsWrite (l : List (String × List Nat)) (id : String) (v : List Nat) :
    List (String × List Nat) :=
  (id, v) :: fsEraseAll l id

/-- `Path.unlink()`: fails (raises `FileNotFoundError`, modelled as
`none`) when no such file exists. -/
def fsUnlink (l : List (String × List Nat)) (id : String) :
    Option (List (String × List Nat)) :=
  match flookup l id with
  | some _ => some (fsEraseAll l id)
  | none => none

/-- `ObjectCache.get_entry` (`local_file_cache.py:41-64`): try to open
the file in `active` first, then in `pending`; absent from both gives
`none`.  `Except.error` models the uncaught `UnicodeDecodeError` escaping
from `CacheEntry.__init__` when the file's first line is not valid
UTF-8. -/
def get_entry (c : Cache) (id : String) : Except Unit (Option CacheEntry) :=
  match flookup c.active id with
  | some f =>
    match readEntry f with
    | some td => .ok (some ⟨.ACTIVE, td.1, td.2⟩)
    | none => .error ()
  | none =>
    match flookup c.pending id with
    | some f =>
      match readEntry f with
      | some td => .ok (some ⟨.PENDING, td.1, td.2⟩)
      | none => .error ()
    | none => .ok none

/-- The write phase of `ObjectCache.create_entry` (`local_file_cache.py:83`):
`CacheEntry(EntryStatus.PENDING, path=self._pending_dir.joinpath(entry_id)).write(entry_type, data)`
— an ordinary truncating `open("wb")` write into the pending directory. -/
def create_write (c : Cache) (id : String) (t : CacheEntryType) (d : List Nat) : Cache :=
  { c with pending := fsWrite c.pending id (encodeFile t d) }

/-- `ObjectCache.create_entry` (`local_file_cache.py:66-84`): a separate
existence check (`get_entry`) followed, when the id is absent, by the
truncating write `create_write`. -/
def create_entry (c : Cache) (id : String) (t : CacheEntryType) (d : List Nat) :
    Except Unit (CreationStatus × Cache) :=
  match get_entry c id with
  | .error e => .error e
  | .ok (some _) => .ok (.EXISTING, c)
  | .ok none => .ok (.CREATED, create_write c id t d)

/-- `ObjectCache.activate_entry` (`local_file_cache.py:86-102`): locate
the entry; fail if absent or not `PENDING`; otherwise write the new
content to the pending file (`CacheEntry.write`) and atomically rename it
into the active directory (`CacheEntry.rename`,
`cache_entry.py:74-83`). -/
def activate_entry (c : Cache) (id : String) (t : CacheEntryType) (d : List Nat) :
    Except Unit (ActivationStatus × Cache) :=
  match get_entry c id with
  | .error e => .error e
  | .ok none => .ok (.FAILED, c)
  | .ok (some entry) =>
    if entry.status ≠ .PENDING then .ok (.FAILED, c)
    else
      .ok (.SUCCESS,
        { pending := fsEraseAll (fsWrite c.pending id (encodeFile t d)) id,
          active := fsWrite c.active id (encodeFile t d) })

/-- Which of the two directories a file scheduled for removal lives in. -/
inductive Loc where
  | pend
  | act
deriving DecidableEq, Repr

/-- The removal set built by the first half of `ObjectCache.prune`
(`local_file_cache.py:111-123`): every entry of `pending`, then of
`active`, whose *name* satisfies `is_expired`.  The predicate is applied
to `e.name` only — no file is opened. -/
def removalSet (c : Cache) (p : String → Bool) : List (Loc × String) :=
  (c.pending.filter (fun e => p e.1)).map (fun e => (Loc.pend, e.1))
    ++ (c.active.filter (fun e => p e.1)).map (fun e => (Loc.act, e.1))

/-- Unlinking one scheduled file from the store. -/
def unlinkAt (c : Cache) : Loc × String → Option Cache
  | (.pend, id) =>
    match fsUnlink c.pending id with
    | some l => some ⟨l, c.active⟩
    | none => none
  | (.act, id) =>
    match fsUnlink c.active id with
    | some l => some ⟨c.pending, l⟩
    | none => none

/-- The deletion loop of `ObjectCache.prune` (`local_file_cache.py:124-126`):
`for e in to_remove: e.unlink()`.  There is no exception handler around
`e.unlink()`, so a `FileNotFoundError` propagates out of `prune`
immediately: `Except.error` carries the store state at the moment the
exception escapes (earlier deletions done, later ones not). -/
def deleteAll (c : Cache) : List (Loc × String) → Except Cache Cache
  | [] => .ok c
  | r :: rs =>
    match unlinkAt c r with
    | some c2 => deleteAll c2 rs
    | none => .error c

/-- `ObjectCache.prune` (`local_file_cache.py:104-131`): build the full
removal set from both directories, then delete. -/
def prune (c : Cache) (p : String → Bool) : Except Cache Cache :=
  deleteAll c (removalSet c p)

/-- Single-directory view of the deletion loop of `prune`: unlink the
named files in order, propagating the first `FileNotFoundError`
(`Except.error` carries the directory at the moment the exception
escapes). -/
def delDir : List (String × List Nat) → List String →
    Except (List (String × List Nat)) (List (String × List Nat))
  | l, [] => .ok l
  | l, id :: ids =>
    match fsUnlink l id with
    | some l2 => delDir l2 ids
    | none => .error l

/-- An identifier exists in at most one of the two directories. -/
def DirsDisjoint (c : Cache) : Prop :=
  ∀ id, id ∈ dirNames c.pending → id ∉ dirNames c.active

/-- Store states reachable from the empty store (a fresh `ObjectCache`
base directory) through the cache's mutating operations.  `get_entry` is
read-only, and a raising (`Except.error`) `create_entry` or
`activate_entry` leaves the store unchanged because the exception escapes
before any write; a raising `prune` leaves the partially swept state
carried by its `Except.error`. -/
inductive Reachable : Cache → Prop where
  | init : Reachable ⟨[], []⟩
  | create {c : Cache} {id : String} {t : CacheEntryType} {d : List Nat}
      {s : CreationStatus} {c' : Cache} :
      Reachable c → create_entry c id t d = .ok (s, c') → Reachable c'
  | activate {c : Cache} {id : String} {t : CacheEntryType} {d : List Nat}
      {s : ActivationStatus} {c' : Cache} :
      Reachable c → activate_entry c id t d = .ok (s, c') → Reachable c'
  | prune_ok {c : Cache} {p : String → Bool} {c' : Cache} :
      Reachable c → prune c p = .ok c' → Reachable c'
  | prune_err {c : Cache} {p : String → Bool} {c' : Cache} :
      Reachable c → prune c p = .error c' → Reachable c'

/-! ## The identifier codec of `main.py` / `app/main.py`

Python strings are modelled as `List Char`; instants are `Nat`
microseconds since the epoch (the resolution of `datetime`
timestamps). -/

/-- Python `str.split(sep)` for a single-character separator. -/
def splitOnChar (sep : Char) : List Char → List (List Char)
  | [] => [[]]
  | c :: t =>
    let r := splitOnChar sep t
    if c = sep then [] :: r
    else
      match r with
      | h :: t2 => (c :: h) :: t2
      | [] => [[c]]

/-- The decimal digit character of `d`. -/
def digitChar (d : Nat) : Char := Char.ofNat (48 + d)

/-- Most-significant-first decimal digits of `n` (empty for `0`). -/
def natChars (n : Nat) : List Char :=
  ((Nat.digits 10 n).reverse).map digitChar

/-- Decimal rendering of a natural number. -/
def fmtNatChars (n : Nat) : List Char :=
  if n = 0 then ['0'] else natChars n

/-- The six-digit zero-padded microsecond fraction. -/
def fmtFracChars (f : Nat) : List Char :=
  List.replicate (6 - (natChars f).length) '0' ++ natChars f

/-- Rendering of `t.timestamp()` for an instant of `v` microseconds:
seconds, a dot, and the microsecond fraction.  (CPython prints the float
with trailing zeros of the fraction elided; the value parsed back by
`float()` is the same, so the model fixes the equivalent zero-padded
form.) -/
def fmtTimestamp (v : Nat) : List Char :=
  fmtNatChars (v / 1000000) ++ '.' :: fmtFracChars (v % 1000000)

/-- `make_image_id` (`main.py:60-67` / `app/main.py:103-110`):
`f"{h}_{t.timestamp()}"` where `h = sha256(str(api_query)).hexdigest()`
and `t = now + timedelta(seconds=ttl)`.  The digest is passed in
abstractly as `digest`; a SHA-256 hex digest consists of lowercase hex
characters only, which the round-trip theorem takes as a hypothesis. -/
def make_image_id (digest : List Char) (now ttlSeconds : Nat) : List Char :=
  digest ++ '_' :: fmtTimestamp (now + ttlSeconds * 1000000)

/-- A decimal digit character, or `none`. -/
def charDigit (c : Char) : Option Nat :=
  if 48 ≤ c.toNat ∧ c.toNat ≤ 57 then some (c.toNat - 48) else none

/-- All-decimal-digit parse of a character list. -/
def digitsOfChars : List Char → Option (List Nat)
  | [] => some []
  | c :: t =>
    match charDigit c, digitsOfChars t with
    | some d, some ds => some (d :: ds)
    | _, _ => none

/-- Most-significant-first decimal parse of a nonempty digit string. -/
def parseNatMSB (cs : List Char) : Option Nat :=
  if cs = [] then none
  else (digitsOfChars cs).map (fun ds => Nat.ofDigits 10 ds.reverse)

/-- Python `float(s)` restricted to the decimal timestamp forms relevant
here (`digits` or `digits.digits`, microsecond resolution), returning the
instant in microseconds; `none` models `ValueError`. -/
def parseTs (cs : List Char) : Option Nat :=
  match splitOnChar '.' cs with
  | [sec] => (parseNatMSB sec).map (fun s => s * 1000000)
  | [sec, frac] =>
    match parseNatMSB sec, digitsOfChars frac with
    | some s, some ds =>
      if ds ≠ [] ∧ ds.length ≤ 6 then
        some (s * 1000000 + Nat.ofDigits 10 ds.reverse * 10 ^ (6 - ds.length))
      else none
    | _, _ => none
  | _ => none

/-- `expiration` (`main.py:130-139` / `app/main.py:171-180`):
`float(image_id.split("_")[1])` under a catch-all `except` — `none` when
the id has no second `_`-separated component or that component does not
parse as a timestamp. -/
def expiration (id : List Char) : Option Nat :=
  match splitOnChar '_' id with
  | _ :: second :: _ => parseTs second
  | _ => none

/-- `is_expired` (`main.py:142-153` / `app/main.py:183-194`): an id whose
expiration cannot be parsed is expired; otherwise expired iff the encoded
instant lies strictly before `now`. -/
def is_expired (id : List Char) (now : Nat) : Bool :=
  match expiration id with
  | none => true
  | some ts => decide (ts < now)

/-! ## The bounded blocking wait

Modelled from the spec: the `ObjectCache.wait_for` implementation called
at `app/main.py:254` (with the `entry_wait_timeout` configured at
`app/main.py:88`) is not part of the sources; only its caller is.  §4.4
of the specification describes it: cooperative polling of `lookup` at a
fixed interval until the entry leaves pending state or the hard timeout
elapses, with timeout surfaced as a "still pending" outcome rather than
a failure. -/

/-- Outcome of the wait primitive: the entry left pending state (became
active or disappeared), or the timeout elapsed with the entry still
pending. -/
inductive WaitOutcome where
  | resolved
  | stillPending
deriving DecidableEq, Repr

/-- One polling loop of the wait primitive: `isPending t` tells whether
the watched entry is still pending at elapsed time `t`.  Returns the
outcome and the elapsed time at return; `fuel` bounds the number of
iterations, `none` modelling non-termination. -/
def wait_for_poll (isPending : Nat → Bool) (poll timeout : Nat) :
    Nat → Nat → Option (WaitOutcome × Nat)
  | _, 0 => none
  | elapsed, fuel + 1 =>
    if ¬ isPending elapsed then some (.resolved, elapsed)
    else if timeout ≤ elapsed then some (.stillPending, elapsed)
    else wait_for_poll isPending poll timeout (elapsed + poll) fuel

/-- Modelled from the spec (§4.4): `wait_for(id, timeout)` polls at the
fixed interval `poll` starting immediately, until the entry is no longer
pending or the timeout has elapsed. -/
def wait_for (isPending : Nat → Bool) (poll timeout : Nat) :
    Option (WaitOutcome × Nat) :=
  wait_for_poll isPending poll timeout 0 (timeout + 1)

/-! ## Directory-level lemmas -/

theorem dirNames_cons (e : String × List Nat) (t : List (String × List Nat)) :
    dirNames (e :: t) = e.1 :: dirNames t := rfl

theorem flookup_eq_none {l : List (String × List Nat)} {id : String} :
    flookup l id = none ↔ id ∉ dirNames l := by
  induction l with
  | nil => simp [flookup, dirNames]
  | cons e t ih =>
    obtain ⟨k, v⟩ := e
    by_cases h : k = id
    · subst h
      simp [flookup, dirNames_cons]
    · simp only [flookup, dirNames_cons, List.mem_cons]
      rw [if_neg h, ih]
      constructor
      · intro hn hc
        rcases hc with hc | hc
        · exact h hc.symm
        · exact hn hc
      · intro hn hc
        exact hn (Or.inr hc)

theorem mem_dirNames_fsEraseAll {l : List (String × List Nat)} {id j : String} :
    j ∈ dirNames (fsEraseAll l id) ↔ j ∈ dirNames l ∧ j ≠ id := by
  simp only [dirNames, fsEraseAll, List.mem_map, List.mem_filter, decide_eq_true_eq]
  constructor
  · rintro ⟨e, ⟨he, hne⟩, rfl⟩
    exact ⟨⟨e, he, rfl⟩, hne⟩
  · rintro ⟨⟨e, he, rfl⟩, hne⟩
    exact ⟨e, ⟨he, hne⟩, rfl⟩

theorem mem_dirNames_fsWrite {l : List (String × List Nat)} {id j : String} {v : List Nat} :
    j ∈ dirNames (fsWrite l id v) ↔ j = id ∨ j ∈ dirNames l := by
  constructor
  · intro h
    rcases (by simpa [fsWrite, dirNames] using h :
        j = id ∨ j ∈ dirNames (fsEraseAll l id)) with h | h
    · exact Or.inl h
    · exact Or.inr (mem_dirNames_fsEraseAll.mp h).1
  · rintro (rfl | h)
    · simp [fsWrite, dirNames]
    · by_cases hj : j = id
      · simp [fsWrite, dirNames, hj]
      · simp only [fsWrite, dirNames, List.map_cons, List.mem_cons]
        exact Or.inr (by simpa [dirNames] using mem_dirNames_fsEraseAll.mpr ⟨h, hj⟩)

theorem flookup_fsEraseAll_ne {l : List (String × List Nat)} {id id' : String}
    (h : id' ≠ id) : flookup (fsEraseAll l id) id' = flookup l id' := by
  have h2 : id ≠ id' := fun hc => h hc.symm
  induction l with
  | nil => rfl
  | cons e t ih =>
    obtain ⟨k, v⟩ := e
    have ih2 : flookup (List.filter (fun e => !decide (e.1 = id)) t) id' = flookup t id' := by
      simpa [fsEraseAll, decide_not] using ih
    by_cases he : k = id
    · subst he
      simp [fsEraseAll, List.filter_cons, flookup, h2, ih2]
    · by_cases hk : k = id'
      · subst hk
        simp [fsEraseAll, List.filter_cons, flookup, he, ih2]
      · simp [fsEraseAll, List.filter_cons, flookup, he, hk, ih2]

theorem flookup_fsWrite_self (l : List (String × List Nat)) (id : String) (v : List Nat) :
    flookup (fsWrite l id v) id = some v := by
  simp [fsWrite, flookup]

theorem flookup_fsWrite_ne {l : List (String × List Nat)} {id id' : String} {v : List Nat}
    (h : id' ≠ id) : flookup (fsWrite l id v) id' = flookup l id' := by
  have : id ≠ id' := fun hc => h hc.symm
  simp [fsWrite, flookup, this, flookup_fsEraseAll_ne h]

theorem fsEraseAll_of_not_mem {l : List (String × List Nat)} {id : String}
    (h : id ∉ dirNames l) : fsEraseAll l id = l := by
  induction l with
  | nil => rfl
  | cons e t ih =>
    have h1 : ¬ id = e.1 ∧ id ∉ dirNames t := by
      rw [dirNames_cons] at h
      exact ⟨fun hc => h (List.mem_cons.mpr (Or.inl hc)),
        fun hc => h (List.mem_cons.mpr (Or.inr hc))⟩
    have he : ¬ e.1 = id := fun hc => h1.1 hc.symm
    have ht := ih h1.2
    simp only [fsEraseAll, List.filter_cons, he]
    simp [fsEraseAll, he]
    intro a b hab hc
    subst hc
    exact h1.2 (List.mem_map.mpr ⟨(a, b), hab, rfl⟩)

theorem fsEraseAll_fsWrite (l : List (String × List Nat)) (id : String) (v : List Nat) :
    fsEraseAll (fsWrite l id v) id = fsEraseAll l id := by
  simp [fsWrite, fsEraseAll, List.filter_cons, List.filter_filter]

/-! ## Entry file round-trip -/

theorem readLine_no_newline {l : List Nat} (d : List Nat) (h : ∀ b ∈ l, b ≠ 10) :
    readLine (l ++ 10 :: d) = (l ++ [10], d) := by
  induction l with
  | nil => simp [readLine]
  | cons b t ih =>
    have hb : b ≠ 10 := h b (by simp)
    have ht : ∀ x ∈ t, x ≠ 10 := fun x hx => h x (by simp [hx])
    simp [readLine, hb, ih ht]

/-- Reading back a file written by `CacheEntry.write` recovers the
category and byte-for-byte the payload. -/
theorem readEntry_encodeFile (t : CacheEntryType) (d : List Nat) :
    readEntry (encodeFile t d) = some (t, d) := by
  have h10 : ∀ b ∈ tagBytes t, b ≠ 10 := by cases t <;> decide
  have hline := @readLine_no_newline (tagBytes t) d h10
  have hs : stripBytes (tagBytes t ++ [10]) = tagBytes t := by cases t <;> decide
  have hv : validUtf8 (tagBytes t) = true := by cases t <;> decide
  have hp : parseHeader (tagBytes t) = t := by cases t <;> decide
  simp [readEntry, encodeFile, hline, hs, hv, hp]

/-! ## Characterizations of the store operations -/

theorem get_entry_ok_none_iff {c : Cache} {id : String} :
    get_entry c id = .ok none ↔
      flookup c.active id = none ∧ flookup c.pending id = none := by
  cases h1 : flookup c.active id with
  | some f => cases h3 : readEntry f <;> simp [get_entry, h1, h3]
  | none =>
    cases h2 : flookup c.pending id with
    | some f => cases h3 : readEntry f <;> simp [get_entry, h1, h2, h3]
    | none => simp [get_entry, h1, h2]

theorem activate_entry_success {c : Cache} {id : String} {t : CacheEntryType}
    {d : List Nat} {c' : Cache}
    (h : activate_entry c id t d = .ok (.SUCCESS, c')) :
    c'.pending = fsEraseAll c.pending id
      ∧ c'.active = fsWrite c.active id (encodeFile t d) := by
  unfold activate_entry at h
  cases hg : get_entry c id with
  | error e => rw [hg] at h; simp at h
  | ok o =>
    cases o with
    | none => rw [hg] at h; simp at h
    | some entry =>
      rw [hg] at h
      by_cases hs : entry.status = .PENDING
      · simp only [hs, ne_eq, not_true_eq_false, if_false, Except.ok.injEq,
          Prod.mk.injEq, true_and] at h
        rw [← h]
        exact ⟨fsEraseAll_fsWrite _ _ _, rfl⟩
      · simp [hs] at h

theorem get_entry_after_activate {c : Cache} {id : String} {t : CacheEntryType}
    {d : List Nat} {c' : Cache}
    (h : activate_entry c id t d = .ok (.SUCCESS, c')) :
    get_entry c' id = .ok (some ⟨.ACTIVE, t, d⟩) := by
  obtain ⟨hp, ha⟩ := activate_entry_success h
  simp [get_entry, ha, flookup_fsWrite_self, readEntry_encodeFile]

theorem create_entry_ok_cases {c : Cache} {id : String} {t : CacheEntryType}
    {d : List Nat} {s : CreationStatus} {c' : Cache}
    (h : create_entry c id t d = .ok (s, c')) :
    (s = .EXISTING ∧ c' = c) ∨
      (s = .CREATED ∧ get_entry c id = .ok none ∧ c' = create_write c id t d) := by
  unfold create_entry at h
  cases hg : get_entry c id with
  | error e => rw [hg] at h; simp at h
  | ok o =>
    cases o with
    | some e =>
      rw [hg] at h
      simp only [Except.ok.injEq, Prod.mk.injEq] at h
      exact Or.inl ⟨h.1.symm, h.2.symm⟩
    | none =>
      rw [hg] at h
      simp only [Except.ok.injEq, Prod.mk.injEq] at h
      exact Or.inr ⟨h.1.symm, rfl, h.2.symm⟩

theorem activate_entry_ok_cases {c : Cache} {id : String} {t : CacheEntryType}
    {d : List Nat} {s : ActivationStatus} {c' : Cache}
    (h : activate_entry c id t d = .ok (s, c')) :
    (s = .FAILED ∧ c' = c) ∨
      (s = .SUCCESS ∧ c'.pending = fsEraseAll c.pending id
        ∧ c'.active = fsWrite c.active id (encodeFile t d)) := by
  unfold activate_entry at h
  cases hg : get_entry c id with
  | error e => rw [hg] at h; simp at h
  | ok o =>
    cases o with
    | none =>
      rw [hg] at h
      simp only [Except.ok.injEq, Prod.mk.injEq] at h
      exact Or.inl ⟨h.1.symm, h.2.symm⟩
    | some entry =>
      rw [hg] at h
      by_cases hs : entry.status = .PENDING
      · simp only [hs, ne_eq, not_true_eq_false, if_false, Except.ok.injEq,
          Prod.mk.injEq] at h
        refine Or.inr ⟨h.1.symm, ?_, ?_⟩
        · rw [← h.2]; exact fsEraseAll_fsWrite _ _ _
        · rw [← h.2]
      · simp only [ne_eq, hs, not_false_eq_true, if_true, Except.ok.injEq,
          Prod.mk.injEq] at h
        exact Or.inl ⟨h.1.symm, h.2.symm⟩

/-! ## Claim C2 -/

/-- **C2.** If promotion (`activate_entry id t d`) returns `SUCCESS` on a
pending entry, then looking the identifier up in the resulting store
(`get_entry`, hence every subsequent lookup of that store state) returns
an entry with state `ACTIVE`, the promoted category `t`, and
byte-for-byte the payload `d` passed to promote. -/
theorem C2_promote_then_lookup (c : Cache) (id : String) (t : CacheEntryType)
    (d : List Nat) (c' : Cache)
    (h : activate_entry c id t d = .ok (.SUCCESS, c')) :
    get_entry c' id = .ok (some ⟨.ACTIVE, t, d⟩) :=
  get_entry_after_activate h

theorem C2_promote_then_lookup_witness :
    activate_entry ⟨[("a", encodeFile .REQUEST [7])], []⟩ "a" .IMAGE [1, 2, 3]
        = .ok (.SUCCESS, ⟨[], [("a", encodeFile .IMAGE [1, 2, 3])]⟩)
    ∧ get_entry ⟨[], [("a", encodeFile .IMAGE [1, 2, 3])]⟩ "a"
        = .ok (some ⟨.ACTIVE, .IMAGE, [1, 2, 3]⟩) :=
  ⟨by rfl,
    C2_promote_then_lookup ⟨[("a", encodeFile .REQUEST [7])], []⟩ "a" .IMAGE [1, 2, 3]
      ⟨[], [("a", encodeFile .IMAGE [1, 2, 3])]⟩ (by rfl)⟩

/-! ## Claim C3 -/

/-- **C3.** Creating the same identifier twice in sequence returns
`CREATED` for the first call and `EXISTING` for the second, the second
call leaves the store — in particular the payload stored by the first
call — unchanged, and a `create_entry` on any store already holding the
identifier (pending or active) returns `EXISTING` without modifying the
store. -/
theorem C3_create_twice (c : Cache) (id : String) (t t2 : CacheEntryType)
    (d d2 : List Nat) (habs : get_entry c id = .ok none) :
    create_entry c id t d = .ok (.CREATED, create_write c id t d)
    ∧ create_entry (create_write c id t d) id t2 d2
        = .ok (.EXISTING, create_write c id t d)
    ∧ (∀ c0 e, get_entry c0 id = .ok (some e) →
        create_entry c0 id t2 d2 = .ok (.EXISTING, c0)) := by
  obtain ⟨hact, hpend⟩ := get_entry_ok_none_iff.mp habs
  refine ⟨by simp [create_entry, habs], ?_, ?_⟩
  · have hget : get_entry (create_write c id t d) id = .ok (some ⟨.PENDING, t, d⟩) := by
      simp [get_entry, create_write, hact, flookup_fsWrite_self, readEntry_encodeFile]
    simp [create_entry, hget]
  · intro c0 e hg
    simp [create_entry, hg]

theorem C3_create_twice_witness :
    get_entry ⟨[], []⟩ "a" = .ok none
    ∧ create_entry ⟨[], []⟩ "a" .REQUEST [5]
        = .ok (.CREATED, create_write ⟨[], []⟩ "a" .REQUEST [5])
    ∧ create_entry (create_write ⟨[], []⟩ "a" .REQUEST [5]) "a" .REQUEST [9]
        = .ok (.EXISTING, create_write ⟨[], []⟩ "a" .REQUEST [5]) :=
  ⟨by rfl, (C3_create_twice ⟨[], []⟩ "a" .REQUEST .REQUEST [5] [9] (by rfl)).1,
    (C3_create_twice ⟨[], []⟩ "a" .REQUEST .REQUEST [5] [9] (by rfl)).2.1⟩

/-! ## Claim C4 -/

/-- **C4.** Promotion (`activate_entry`) on an identifier absent from
both directories, or on an identifier whose entry is already `ACTIVE`,
returns `FAILED` and leaves the store (both directories, hence the
existing entry's content) unchanged; in particular a second promotion
directly after a successful one is rejected with `FAILED` and leaves the
promoted store unchanged. -/
theorem C4_activate_fails (c : Cache) (id : String) (t : CacheEntryType) (d : List Nat) :
    (get_entry c id = .ok none → activate_entry c id t d = .ok (.FAILED, c))
    ∧ (∀ e, get_entry c id = .ok (some e) → e.status = .ACTIVE →
        activate_entry c id t d = .ok (.FAILED, c))
    ∧ (∀ t0 d0 c', activate_entry c id t0 d0 = .ok (.SUCCESS, c') →
        activate_entry c' id t d = .ok (.FAILED, c')) := by
  refine ⟨?_, ?_, ?_⟩
  · intro h
    simp [activate_entry, h]
  · intro e hg hs
    have hne : e.status ≠ .PENDING := by rw [hs]; simp
    simp [activate_entry, hg, hne]
  · intro t0 d0 c' h
    have hg := get_entry_after_activate h
    simp [activate_entry, hg]

theorem C4_activate_fails_witness :
    get_entry ⟨[], []⟩ "nope" = .ok none
    ∧ activate_entry ⟨[], []⟩ "nope" .IMAGE [1] = .ok (.FAILED, ⟨[], []⟩) :=
  ⟨by rfl, (C4_activate_fails ⟨[], []⟩ "nope" .IMAGE [1]).1 (by rfl)⟩

/-! ## Claim C1: reachability and directory disjointness -/

theorem unlinkAt_dirNames_subset {c c' : Cache} {r : Loc × String}
    (h : unlinkAt c r = some c') :
    (∀ j, j ∈ dirNames c'.pending → j ∈ dirNames c.pending)
    ∧ (∀ j, j ∈ dirNames c'.active → j ∈ dirNames c.active) := by
  obtain ⟨loc, id⟩ := r
  cases loc
  case pend =>
    simp only [unlinkAt, fsUnlink] at h
    cases hl : flookup c.pending id with
    | none => rw [hl] at h; simp at h
    | some f =>
      rw [hl] at h
      simp only [Option.some.injEq] at h
      rw [← h]
      exact ⟨fun j hj => (mem_dirNames_fsEraseAll.mp hj).1, fun j hj => hj⟩
  case act =>
    simp only [unlinkAt, fsUnlink] at h
    cases hl : flookup c.active id with
    | none => rw [hl] at h; simp at h
    | some f =>
      rw [hl] at h
      simp only [Option.some.injEq] at h
      rw [← h]
      exact ⟨fun j hj => hj, fun j hj => (mem_dirNames_fsEraseAll.mp hj).1⟩

theorem deleteAll_dirNames_subset {rs : List (Loc × String)} {c c' : Cache}
    (h : deleteAll c rs = .ok c' ∨ deleteAll c rs = .error c') :
    (∀ j, j ∈ dirNames c'.pending → j ∈ dirNames c.pending)
    ∧ (∀ j, j ∈ dirNames c'.active → j ∈ dirNames c.active) := by
  induction rs generalizing c with
  | nil =>
    have hc : c' = c := by
      rcases h with h | h <;> simp only [deleteAll, Except.ok.injEq] at h
      · exact h.symm
      · exact absurd h (by simp)
    rw [hc]
    exact ⟨fun j hj => hj, fun j hj => hj⟩
  | cons r rs ih =>
    cases hu : unlinkAt c r with
    | some c2 =>
      have h2 : deleteAll c2 rs = .ok c' ∨ deleteAll c2 rs = .error c' := by
        rcases h with h | h <;> simp only [deleteAll, hu] at h
        · exact Or.inl h
        · exact Or.inr h
      obtain ⟨hp2, ha2⟩ := ih h2
      obtain ⟨hp1, ha1⟩ := unlinkAt_dirNames_subset hu
      exact ⟨fun j hj => hp1 j (hp2 j hj), fun j hj => ha1 j (ha2 j hj)⟩
    | none =>
      have hc : c' = c := by
        rcases h with h | h <;> simp only [deleteAll, hu] at h
        · exact absurd h (by simp)
        · simp only [Except.error.injEq] at h
          exact h.symm
      rw [hc]
      exact ⟨fun j hj => hj, fun j hj => hj⟩

theorem DirsDisjoint_of_subsets {c c' : Cache}
    (hp : ∀ j, j ∈ dirNames c'.pending → j ∈ dirNames c.pending)
    (ha : ∀ j, j ∈ dirNames c'.active → j ∈ dirNames c.active)
    (h : DirsDisjoint c) : DirsDisjoint c' :=
  fun id hid hact => h id (hp id hid) (ha id hact)

theorem reachable_disjoint {c : Cache} (h : Reachable c) : DirsDisjoint c := by
  induction h with
  | init => intro id hid; simp [dirNames] at hid
  | @create c0 id t d s c' _ hc ih =>
    rcases create_entry_ok_cases hc with ⟨_, rfl⟩ | ⟨_, hnone, rfl⟩
    · exact ih
    · obtain ⟨hact, hpend⟩ := get_entry_ok_none_iff.mp hnone
      intro j hj
      rcases mem_dirNames_fsWrite.mp (by simpa [create_write] using hj) with rfl | hjp
      · simpa [create_write] using flookup_eq_none.mp hact
      · simpa [create_write] using ih j hjp
  | @activate c0 id t d s c' _ hc ih =>
    rcases activate_entry_ok_cases hc with ⟨_, rfl⟩ | ⟨_, hpend, hactive⟩
    · exact ih
    · intro j hj hja
      rw [hpend] at hj
      obtain ⟨hjp, hjne⟩ := mem_dirNames_fsEraseAll.mp hj
      rw [hactive] at hja
      rcases mem_dirNames_fsWrite.mp hja with rfl | hja2
      · exact hjne rfl
      · exact ih j hjp hja2
  | @prune_ok c0 p c' _ hc ih =>
    obtain ⟨hp, ha⟩ := @deleteAll_dirNames_subset (removalSet c0 p) c0 c' (Or.inl hc)
    exact DirsDisjoint_of_subsets hp ha ih
  | @prune_err c0 p c' _ hc ih =>
    obtain ⟨hp, ha⟩ := @deleteAll_dirNames_subset (removalSet c0 p) c0 c' (Or.inr hc)
    exact DirsDisjoint_of_subsets hp ha ih

/-- **C1.** For every reachable store state an identifier exists in at
most one of the pending and active directories (`DirsDisjoint`); the only
operation that moves an entry across directories is the rename performed
by a successful promotion (whose exact effect on both directories is
characterized below); `create_entry` never touches the active directory
and never removes a pending entry; `prune` only ever removes entries from
the directory holding them (on success and on a raising sweep alike); and
`get_entry` is state-less by construction. -/
theorem C1_at_most_one_directory (c : Cache) (h : Reachable c) :
    DirsDisjoint c
    ∧ (∀ id t d s c', create_entry c id t d = .ok (s, c') →
        c'.active = c.active ∧ ∀ j, j ∈ dirNames c.pending → j ∈ dirNames c'.pending)
    ∧ (∀ p c', (prune c p = .ok c' ∨ prune c p = .error c') →
        (∀ j, j ∈ dirNames c'.pending → j ∈ dirNames c.pending)
        ∧ (∀ j, j ∈ dirNames c'.active → j ∈ dirNames c.active))
    ∧ (∀ id t d c', activate_entry c id t d = .ok (.SUCCESS, c') →
        c'.pending = fsEraseAll c.pending id
        ∧ c'.active = fsWrite c.active id (encodeFile t d)) := by
  refine ⟨reachable_disjoint h, ?_, ?_, ?_⟩
  · intro id t d s c' hc
    rcases create_entry_ok_cases hc with ⟨_, rfl⟩ | ⟨_, _, rfl⟩
    · exact ⟨rfl, fun j hj => hj⟩
    · exact ⟨rfl, fun j hj => mem_dirNames_fsWrite.mpr (Or.inr hj)⟩
  · intro p c' hc
    exact @deleteAll_dirNames_subset (removalSet c p) c c' hc
  · intro id t d c' hc
    exact activate_entry_success hc

theorem C1_at_most_one_directory_witness :
    DirsDisjoint ⟨[("a", encodeFile .REQUEST [5])], []⟩ :=
  (C1_at_most_one_directory ⟨[("a", encodeFile .REQUEST [5])], []⟩
    (@Reachable.create ⟨[], []⟩ "a" CacheEntryType.REQUEST [5] CreationStatus.CREATED
      ⟨[("a", encodeFile CacheEntryType.REQUEST [5])], []⟩ Reachable.init (by rfl))).1

/-! ## Claim C6: prune removes exactly the expired entries -/

theorem deleteAll_append (c : Cache) (rs1 rs2 : List (Loc × String)) :
    deleteAll c (rs1 ++ rs2) =
      match deleteAll c rs1 with
      | .ok c2 => deleteAll c2 rs2
      | .error c2 => .error c2 := by
  induction rs1 generalizing c with
  | nil => rfl
  | cons r rs ih =>
    cases hu : unlinkAt c r with
    | some c2 => simp [deleteAll, hu, ih]
    | none => simp [deleteAll, hu]

theorem deleteAll_pend_lift (ids : List String) (c : Cache) :
    deleteAll c (ids.map (fun i => (Loc.pend, i))) =
      match delDir c.pending ids with
      | .ok l => .ok ⟨l, c.active⟩
      | .error l => .error ⟨l, c.active⟩ := by
  induction ids generalizing c with
  | nil => rfl
  | cons i ids ih =>
    cases hu : fsUnlink c.pending i with
    | some l =>
      have hat : unlinkAt c (Loc.pend, i) = some ⟨l, c.active⟩ := by
        simp [unlinkAt, hu]
      simp [deleteAll, delDir, hat, hu, ih ⟨l, c.active⟩]
    | none =>
      have hat : unlinkAt c (Loc.pend, i) = none := by
        simp [unlinkAt, hu]
      simp [deleteAll, delDir, hat, hu]

theorem deleteAll_act_lift (ids : List String) (c : Cache) :
    deleteAll c (ids.map (fun i => (Loc.act, i))) =
      match delDir c.active ids with
      | .ok l => .ok ⟨c.pending, l⟩
      | .error l => .error ⟨c.pending, l⟩ := by
  induction ids generalizing c with
  | nil => rfl
  | cons i ids ih =>
    cases hu : fsUnlink c.active i with
    | some l =>
      have hat : unlinkAt c (Loc.act, i) = some ⟨c.pending, l⟩ := by
        simp [unlinkAt, hu]
      simp [deleteAll, delDir, hat, hu, ih ⟨c.pending, l⟩]
    | none =>
      have hat : unlinkAt c (Loc.act, i) = none := by
        simp [unlinkAt, hu]
      simp [deleteAll, delDir, hat, hu]

theorem mem_dirNames_filter {l : List (String × List Nat)}
    {q : String × List Nat → Bool} {i : String}
    (h : i ∈ dirNames (l.filter q)) : i ∈ dirNames l := by
  simp only [dirNames, List.mem_map] at h ⊢
  obtain ⟨e, he, rfl⟩ := h
  exact ⟨e, (List.mem_filter.mp he).1, rfl⟩

theorem delDir_cons_preserved {k : String} {v : List Nat} (ids : List String)
    (l : List (String × List Nat)) (h : ∀ i ∈ ids, i ≠ k) :
    delDir ((k, v) :: l) ids =
      match delDir l ids with
      | .ok l2 => .ok ((k, v) :: l2)
      | .error l2 => .error ((k, v) :: l2) := by
  induction ids generalizing l with
  | nil => rfl
  | cons i ids ih =>
    have hik : i ≠ k := h i (by simp)
    have hki : ¬ k = i := fun hc => hik hc.symm
    have hrest : ∀ j ∈ ids, j ≠ k := fun j hj => h j (by simp [hj])
    have hlk : flookup ((k, v) :: l) i = flookup l i := by
      simp [flookup, hki]
    cases hl : flookup l i with
    | some f =>
      have herase : fsEraseAll ((k, v) :: l) i = (k, v) :: fsEraseAll l i := by
        simp [fsEraseAll, List.filter_cons, hki]
      simp [delDir, fsUnlink, hlk, hl, herase, ih _ hrest]
    | none =>
      simp [delDir, fsUnlink, hlk, hl]

theorem delDir_filter_ok {p : String → Bool} (l : List (String × List Nat))
    (hnd : (dirNames l).Nodup) :
    delDir l (dirNames (l.filter (fun e => p e.1)))
      = .ok (l.filter (fun e => !p e.1)) := by
  induction l with
  | nil => rfl
  | cons e t ih =>
    obtain ⟨k, v⟩ := e
    rw [dirNames_cons, List.nodup_cons] at hnd
    obtain ⟨hk, hnd⟩ := hnd
    cases hp : p k with
    | true =>
      have hfil : ((k, v) :: t).filter (fun e => p e.1)
          = (k, v) :: t.filter (fun e => p e.1) := by
        simp [List.filter_cons, hp]
      have herase : fsEraseAll ((k, v) :: t) k = t := by
        rw [show fsEraseAll ((k, v) :: t) k = fsEraseAll t k from by
          simp [fsEraseAll, List.filter_cons]]
        exact fsEraseAll_of_not_mem hk
      have hun : fsUnlink ((k, v) :: t) k = some t := by
        simp [fsUnlink, flookup, herase]
      rw [hfil, dirNames_cons]
      simp only [delDir, hun]
      rw [ih hnd]
      simp [List.filter_cons, hp]
    | false =>
      have hfil : ((k, v) :: t).filter (fun e => p e.1)
          = t.filter (fun e => p e.1) := by
        simp [List.filter_cons, hp]
      rw [hfil]
      have hne : ∀ i ∈ dirNames (t.filter (fun e => p e.1)), i ≠ k := by
        intro i hi hc
        subst hc
        exact hk (mem_dirNames_filter hi)
      rw [delDir_cons_preserved _ _ hne, ih hnd]
      simp [List.filter_cons, hp]

/-- **C6.** For every store and every predicate on identifier strings,
`prune` removes exactly the entries whose *name* the predicate marks
expired — from whichever directory holds each of them — and keeps every
other entry untouched (same name, same bytes, same directory): the
resulting directories are literally the `filter` of the old ones by the
negated predicate.  The predicate is applied to the identifier string
only (the model's `removalSet` never inspects file contents).  The
`Nodup` hypotheses state that a real directory holds at most one file
per name. -/
theorem C6_prune_removes_expired (c : Cache) (p : String → Bool)
    (hpn : (dirNames c.pending).Nodup) (han : (dirNames c.active).Nodup) :
    prune c p = .ok ⟨c.pending.filter (fun e => !p e.1),
      c.active.filter (fun e => !p e.1)⟩ := by
  have hmap1 : (c.pending.filter (fun e => p e.1)).map (fun e => (Loc.pend, e.1))
      = (dirNames (c.pending.filter (fun e => p e.1))).map (fun i => (Loc.pend, i)) := by
    simp only [dirNames]
    rw [List.map_map]
    rfl
  have hmap2 : (c.active.filter (fun e => p e.1)).map (fun e => (Loc.act, e.1))
      = (dirNames (c.active.filter (fun e => p e.1))).map (fun i => (Loc.act, i)) := by
    simp only [dirNames]
    rw [List.map_map]
    rfl
  have h1 : deleteAll c
      ((dirNames (c.pending.filter (fun e => p e.1))).map (fun i => (Loc.pend, i)))
      = .ok ⟨c.pending.filter (fun e => !p e.1), c.active⟩ := by
    rw [deleteAll_pend_lift, delDir_filter_ok c.pending hpn]
  have h2 : deleteAll (⟨c.pending.filter (fun e => !p e.1), c.active⟩ : Cache)
      ((dirNames (c.active.filter (fun e => p e.1))).map (fun i => (Loc.act, i)))
      = .ok ⟨c.pending.filter (fun e => !p e.1),
          c.active.filter (fun e => !p e.1)⟩ := by
    rw [deleteAll_act_lift]
    rw [show (⟨c.pending.filter (fun e => !p e.1), c.active⟩ : Cache).active
      = c.active from rfl]
    rw [delDir_filter_ok c.active han]
  unfold prune removalSet
  rw [hmap1, hmap2, deleteAll_append, h1]
  exact h2

theorem C6_prune_removes_expired_witness :
    (dirNames [("x", [0]), ("y", [1])]).Nodup
    ∧ (dirNames [("z", [2])]).Nodup
    ∧ prune ⟨[("x", [0]), ("y", [1])], [("z", [2])]⟩ (fun id => id == "x" || id == "z")
      = .ok ⟨[("y", [1])], []⟩ := by
  refine ⟨by decide, by decide, ?_⟩
  rw [C6_prune_removes_expired ⟨[("x", [0]), ("y", [1])], [("z", [2])]⟩
    (fun id => id == "x" || id == "z") (by decide) (by decide)]
  rfl

/-! ## Claim C8: the deletion sweep aborts on the first failure -/

/-- **C8 counterexample.**  The claim's second half — "a failure to
delete an individual entry (for example because a concurrent pass
already removed the file) is tolerated rather than fatal: the sweep
continues and the remaining expired entries are still removed" — is
false on the code.  The removal set is built from a store holding the
expired entries `"x"` and `"y"` (first conjunct); if a concurrent pass
removes `"x"` before the deletion loop runs, the first `e.unlink()`
raises `FileNotFoundError`, which `prune` (`local_file_cache.py:124-126`)
does not catch: the loop aborts (second conjunct, the `Except.error`)
and the still-expired entry `"y"` remains in the pending directory
(third conjunct) instead of being removed. -/
theorem C8_counterexample :
    removalSet ⟨[("x", [0]), ("y", [0])], []⟩ (fun _ => true)
      = [(Loc.pend, "x"), (Loc.pend, "y")]
    ∧ deleteAll ⟨[("y", [0])], []⟩ [(Loc.pend, "x"), (Loc.pend, "y")]
      = .error ⟨[("y", [0])], []⟩
    ∧ "y" ∈ dirNames [("y", [0])] :=
  ⟨by rfl, by rfl, by simp [dirNames]⟩

/-- **C8 (amended).**  `prune` does build the full removal set (from
both directories) before deleting anything — it is exactly the deletion
loop applied to `removalSet` computed up front — but an individual
deletion failure is *not* tolerated: the first failing `unlink` raises
immediately (`Except.error` with the store as it stood), so none of the
later entries of the removal set is deleted and the remaining expired
entries survive the sweep. -/
theorem C8_set_built_first_failure_aborts (c : Cache) (p : String → Bool) :
    prune c p = deleteAll c (removalSet c p)
    ∧ (∀ r rs, unlinkAt c r = none → deleteAll c (r :: rs) = .error c) := by
  refine ⟨rfl, ?_⟩
  intro r rs h
  simp [deleteAll, h]

theorem C8_set_built_first_failure_aborts_witness :
    unlinkAt ⟨[("y", [0])], []⟩ (Loc.pend, "x") = none
    ∧ deleteAll ⟨[("y", [0])], []⟩ [(Loc.pend, "x"), (Loc.pend, "y")]
      = .error ⟨[("y", [0])], []⟩ :=
  ⟨by rfl, (C8_set_built_first_failure_aborts ⟨[("y", [0])], []⟩ (fun _ => true)).2
    (Loc.pend, "x") [(Loc.pend, "y")] (by rfl)⟩

/-! ## Claim C9: unrecognized category tags -/

/-- **C9 counterexample.**  The claim's universal range — "this holds
for every possible first-line byte sequence" — is false on the code: a
file whose first line is the single byte `0xFF` is not valid UTF-8, so
`self._handle.readline().strip().decode()` in `CacheEntry.__init__`
(`cache_entry.py:47`) raises `UnicodeDecodeError`, which the
surrounding `except IOError` handler does not catch; the exception
propagates out of `get_entry` (modelled as `Except.error`) instead of an
INVALID entry being returned. -/
theorem C9_counterexample :
    get_entry ⟨[], [("id1", [255, 10, 65])]⟩ "id1" = .error () := by rfl

/-- **C9 (amended).**  For every on-disk entry whose stripped first line
*is valid UTF-8* but is not one of the recognized category tags
(`parseHeader` yields `INVALID`), opening the entry through `get_entry`
yields category `INVALID` with the bytes after the first line as data —
whichever directory holds the file — rather than raising.  (For a first
line that is not valid UTF-8 the construction raises instead; see the
counterexample.) -/
theorem C9_unrecognized_tag_invalid (c : Cache) (id : String) (file : List Nat)
    (hv : validUtf8 (stripBytes (readLine file).1) = true)
    (hr : parseHeader (stripBytes (readLine file).1) = .INVALID) :
    (flookup c.active id = some file →
      get_entry c id = .ok (some ⟨.ACTIVE, .INVALID, (readLine file).2⟩))
    ∧ (flookup c.active id = none → flookup c.pending id = some file →
      get_entry c id = .ok (some ⟨.PENDING, .INVALID, (readLine file).2⟩)) := by
  have hre : readEntry file = some (.INVALID, (readLine file).2) := by
    simp [readEntry, hv, hr]
  exact ⟨fun h => by simp [get_entry, h, hre],
    fun h1 h2 => by simp [get_entry, h1, h2, hre]⟩

theorem C9_unrecognized_tag_invalid_witness :
    validUtf8 (stripBytes (readLine [120, 10, 1, 2]).1) = true
    ∧ parseHeader (stripBytes (readLine [120, 10, 1, 2]).1) = .INVALID
    ∧ flookup [("w", [120, 10, 1, 2])] "w" = some [120, 10, 1, 2]
    ∧ get_entry ⟨[], [("w", [120, 10, 1, 2])]⟩ "w"
      = .ok (some ⟨.ACTIVE, .INVALID, [1, 2]⟩) :=
  ⟨by rfl, by rfl, by rfl,
    (C9_unrecognized_tag_invalid ⟨[], [("w", [120, 10, 1, 2])]⟩ "w" [120, 10, 1, 2]
      (by rfl) (by rfl)).1 (by rfl)⟩

/-! ## Claim C10: creation is check-then-write, not exclusive-create -/

/-- **C10 counterexample.**  The claim — creation is resolved by "a
single atomic exclusive-create (create-if-absent) file operation, not a
separate existence check followed by a write" — is false on the code:
`create_entry` (`local_file_cache.py:66-84`) first calls `get_entry` and
then, on absence, performs an ordinary truncating `open("wb")` write
(`CacheEntry.write`).  Two producers racing on the same id can both run
the check on the same store state and both observe absence (first
conjunct), so both take the `CREATED` branch (second conjunct); the
interleaved writes leave the *second* producer's payload in the file
(third conjunct) — the first payload is silently overwritten with no
signalled conflict, instead of the race collapsing into one
CREATED-versus-EXISTING outcome. -/
theorem C10_counterexample :
    get_entry ⟨[], []⟩ "a" = .ok none
    ∧ create_entry ⟨[], []⟩ "a" .REQUEST [1]
      = .ok (.CREATED, create_write ⟨[], []⟩ "a" .REQUEST [1])
    ∧ get_entry (create_write (create_write ⟨[], []⟩ "a" .REQUEST [1]) "a" .REQUEST [2]) "a"
      = .ok (some ⟨.PENDING, .REQUEST, [2]⟩) :=
  ⟨by rfl, by rfl, by rfl⟩

/-- **C10 (amended).**  `create_entry` resolves duplicate creations by a
separate existence check (`get_entry`) followed — whenever the check
reports absence — by the unconditional truncating write `create_write`;
and the underlying write primitive is not exclusive: writing under a name
that already exists silently replaces the old content (the
"last-writer-wins with no signaled conflict" behavior §9 of the spec
records for this original design). -/
theorem C10_check_then_write (c : Cache) (id : String) (t : CacheEntryType)
    (d : List Nat) :
    (get_entry c id = .ok none →
      create_entry c id t d = .ok (.CREATED, create_write c id t d))
    ∧ (∀ l v0, flookup l id = some v0 →
      flookup (fsWrite l id (encodeFile t d)) id = some (encodeFile t d)) :=
  ⟨fun h => by simp [create_entry, h],
    fun l _ _ => flookup_fsWrite_self l id (encodeFile t d)⟩

theorem C10_check_then_write_witness :
    get_entry ⟨[], []⟩ "a" = .ok none
    ∧ create_entry ⟨[], []⟩ "a" .REQUEST [1]
      = .ok (.CREATED, create_write ⟨[], []⟩ "a" .REQUEST [1])
    ∧ flookup [("a", [0])] "a" = some [0]
    ∧ flookup (fsWrite [("a", [0])] "a" (encodeFile .REQUEST [2])) "a"
      = some (encodeFile .REQUEST [2]) :=
  ⟨by rfl, (C10_check_then_write ⟨[], []⟩ "a" .REQUEST [1]).1 (by rfl), by rfl,
    (C10_check_then_write ⟨[], []⟩ "a" .REQUEST [2]).2 [("a", [0])] [0] (by rfl)⟩

/-! ## Claim C7: the bounded wait times out on a never-promoted entry -/

theorem wait_for_poll_times_out (isPending : Nat → Bool) (poll timeout : Nat)
    (hpend : ∀ t, isPending t = true) :
    ∀ f elapsed, elapsed < timeout + poll → timeout ≤ elapsed + f * poll →
      ∃ r, wait_for_poll isPending poll timeout elapsed (f + 1)
          = some (.stillPending, r)
        ∧ timeout ≤ r ∧ r < timeout + poll := by
  intro f
  induction f with
  | zero =>
    intro elapsed hlt hle
    simp only [Nat.zero_mul, Nat.add_zero] at hle
    refine ⟨elapsed, ?_, hle, hlt⟩
    simp [wait_for_poll, hpend elapsed, hle]
  | succ f ih =>
    intro elapsed hlt hle
    by_cases he : timeout ≤ elapsed
    · refine ⟨elapsed, ?_, he, hlt⟩
      simp [wait_for_poll, hpend elapsed, he]
    · have h1 : elapsed + poll < timeout + poll := by omega
      have h2 : timeout ≤ elapsed + poll + f * poll := by
        have hx : elapsed + (f + 1) * poll = elapsed + poll + f * poll := by ring
        omega
      obtain ⟨r, hr, hr1, hr2⟩ := ih (elapsed + poll) h1 h2
      refine ⟨r, ?_, hr1, hr2⟩
      have hnle : ¬ timeout ≤ elapsed := he
      simp only [wait_for_poll, hpend elapsed, not_true_eq_false, if_false, hnle]
      exact hr

/-- **C7.**  Modelled from the spec (§4.4): the `ObjectCache.wait_for`
implementation invoked by the reader path (`app/main.py:254`) is not
among the sources, so the polling loop is modelled from the
specification's description.  For an entry that is never promoted
(`isPending` holds at every instant) and any positive poll interval,
`wait_for` terminates (returns `some`) with the timeout outcome — the
"still pending" result, not a failure — at a return instant `r` no
earlier than `timeout` and strictly earlier than `timeout` plus one poll
interval. -/
theorem C7_wait_for_times_out (isPending : Nat → Bool) (poll timeout : Nat)
    (hpoll : 0 < poll) (hpend : ∀ t, isPending t = true) :
    ∃ r, wait_for isPending poll timeout = some (.stillPending, r)
      ∧ timeout ≤ r ∧ r < timeout + poll := by
  have hfuel : timeout ≤ 0 + timeout * poll := by
    have : timeout * 1 ≤ timeout * poll := Nat.mul_le_mul_left timeout hpoll
    omega
  have h := wait_for_poll_times_out isPending poll timeout hpend timeout 0
    (by omega) hfuel
  simpa [wait_for] using h

theorem C7_wait_for_times_out_witness :
    0 < 3 ∧ ∃ r, wait_for (fun _ => true) 3 7 = some (.stillPending, r)
      ∧ 7 ≤ r ∧ r < 7 + 3 :=
  ⟨by decide, C7_wait_for_times_out (fun _ => true) 3 7 (by decide) (fun _ => rfl)⟩

/-! ## Claim C5: the identifier codec -/

theorem splitOnChar_not_mem {sep : Char} {l : List Char} (h : sep ∉ l) :
    splitOnChar sep l = [l] := by
  induction l with
  | nil => rfl
  | cons c t ih =>
    have hc : ¬ c = sep := fun hc => h (by simp [hc])
    have ht : sep ∉ t := fun hm => h (by simp [hm])
    simp [splitOnChar, hc, ih ht]

theorem splitOnChar_append {sep : Char} {l1 : List Char} (l2 : List Char)
    (h : sep ∉ l1) :
    splitOnChar sep (l1 ++ sep :: l2) = l1 :: splitOnChar sep l2 := by
  induction l1 with
  | nil => simp [splitOnChar]
  | cons c t ih =>
    have hc : ¬ c = sep := fun hc => h (by simp [hc])
    have ht : sep ∉ t := fun hm => h (by simp [hm])
    have h2 := ih ht
    simp [splitOnChar, hc, h2]

theorem charDigit_digitChar {d : Nat} (h : d < 10) :
    charDigit (digitChar d) = some d := by
  interval_cases d <;> decide

theorem mem_natChars {n : Nat} {c : Char} (h : c ∈ natChars n) :
    ∃ d, d < 10 ∧ c = digitChar d := by
  simp only [natChars, List.mem_map, List.mem_reverse] at h
  obtain ⟨d, hd, rfl⟩ := h
  exact ⟨d, Nat.digits_lt_base (by norm_num) hd, rfl⟩

theorem mem_fmtNatChars {n : Nat} {c : Char} (h : c ∈ fmtNatChars n) :
    ∃ d, d < 10 ∧ c = digitChar d := by
  rw [fmtNatChars] at h
  by_cases hn : n = 0
  · rw [if_pos hn] at h
    simp only [List.mem_singleton] at h
    exact ⟨0, by norm_num, h⟩
  · rw [if_neg hn] at h
    exact mem_natChars h

theorem mem_fmtFracChars {f : Nat} {c : Char} (h : c ∈ fmtFracChars f) :
    ∃ d, d < 10 ∧ c = digitChar d := by
  rw [fmtFracChars] at h
  rcases List.mem_append.mp h with h | h
  · exact ⟨0, by norm_num, List.eq_of_mem_replicate h⟩
  · exact mem_natChars h

theorem digitChar_ne_underscore {d : Nat} (h : d < 10) : digitChar d ≠ '_' := by
  interval_cases d <;> decide

theorem digitChar_ne_dot {d : Nat} (h : d < 10) : digitChar d ≠ '.' := by
  interval_cases d <;> decide

theorem dot_not_mem_fmtNatChars (n : Nat) : '.' ∉ fmtNatChars n := by
  intro h
  obtain ⟨d, hd, hc⟩ := mem_fmtNatChars h
  exact digitChar_ne_dot hd hc.symm

theorem dot_not_mem_fmtFracChars (f : Nat) : '.' ∉ fmtFracChars f := by
  intro h
  obtain ⟨d, hd, hc⟩ := mem_fmtFracChars h
  exact digitChar_ne_dot hd hc.symm

theorem underscore_not_mem_fmtTimestamp (v : Nat) : '_' ∉ fmtTimestamp v := by
  intro h
  rw [fmtTimestamp] at h
  rcases List.mem_append.mp h with h | h
  · obtain ⟨d, hd, hc⟩ := mem_fmtNatChars h
    exact digitChar_ne_underscore hd hc.symm
  · rcases List.mem_cons.mp h with h | h
    · exact absurd h (by decide)
    · obtain ⟨d, hd, hc⟩ := mem_fmtFracChars h
      exact digitChar_ne_underscore hd hc.symm

theorem digitsOfChars_map_digitChar {ds : List Nat} (h : ∀ d ∈ ds, d < 10) :
    digitsOfChars (ds.map digitChar) = some ds := by
  induction ds with
  | nil => rfl
  | cons d ds ih =>
    have hd : d < 10 := h d (by simp)
    have hds : ∀ x ∈ ds, x < 10 := fun x hx => h x (by simp [hx])
    simp [digitsOfChars, charDigit_digitChar hd, ih hds]

theorem digitsOfChars_replicate_zero_append (k : Nat) (cs : List Char) :
    digitsOfChars (List.replicate k '0' ++ cs)
      = (digitsOfChars cs).map (fun ds => List.replicate k 0 ++ ds) := by
  induction k with
  | zero => simp
  | succ k ih =>
    have h0 : charDigit '0' = some 0 := by decide
    cases hcs : digitsOfChars cs with
    | none =>
      have ihn : digitsOfChars (List.replicate k '0' ++ cs) = none := by
        rw [ih, hcs]; rfl
      simp [List.replicate_succ, digitsOfChars, h0, ihn, hcs]
    | some ds =>
      have ihs : digitsOfChars (List.replicate k '0' ++ cs)
          = some (List.replicate k 0 ++ ds) := by
        rw [ih, hcs]; rfl
      simp [List.replicate_succ, digitsOfChars, h0, ihs, hcs]

theorem ofDigits_replicate_zero (k : Nat) :
    Nat.ofDigits 10 (List.replicate k 0) = 0 := by
  induction k with
  | zero => rfl
  | succ k ih => simp [List.replicate_succ, Nat.ofDigits_cons, ih]

theorem parseNatMSB_fmtNatChars (n : Nat) : parseNatMSB (fmtNatChars n) = some n := by
  by_cases hn : n = 0
  · subst hn
    decide
  · have hne : natChars n ≠ [] := by
      rw [natChars]
      intro hc
      have h2 := List.map_eq_nil_iff.mp hc
      rw [List.reverse_eq_nil_iff] at h2
      exact (Nat.digits_ne_nil_iff_ne_zero.mpr hn) h2
    rw [fmtNatChars, if_neg hn, parseNatMSB, if_neg hne, natChars]
    rw [digitsOfChars_map_digitChar
      (fun d hd => Nat.digits_lt_base (by norm_num) (List.mem_reverse.mp hd))]
    simp [Nat.ofDigits_digits]

theorem digits_len_le_six {f : Nat} (hf : f < 1000000) :
    (Nat.digits 10 f).length ≤ 6 := by
  by_cases h0 : f = 0
  · subst h0; simp
  · rw [Nat.digits_len 10 f (by norm_num) h0]
    have h10 : f < 10 ^ 6 := by
      calc f < 1000000 := hf
        _ = 10 ^ 6 := by norm_num
    have := (Nat.lt_pow_iff_log_lt (by norm_num) h0).mp h10
    omega

theorem parseTs_fmt_general (s f : Nat) (hf : f < 1000000) :
    parseTs (fmtNatChars s ++ '.' :: fmtFracChars f) = some (s * 1000000 + f) := by
  have hsplit : splitOnChar '.' (fmtNatChars s ++ '.' :: fmtFracChars f)
      = [fmtNatChars s, fmtFracChars f] := by
    rw [splitOnChar_append _ (dot_not_mem_fmtNatChars s),
      splitOnChar_not_mem (dot_not_mem_fmtFracChars f)]
  have hlen : (natChars f).length = (Nat.digits 10 f).length := by simp [natChars]
  have hlen6 : (natChars f).length ≤ 6 := by rw [hlen]; exact digits_len_le_six hf
  have hdigs : digitsOfChars (fmtFracChars f)
      = some (List.replicate (6 - (natChars f).length) 0
          ++ (Nat.digits 10 f).reverse) := by
    rw [fmtFracChars, digitsOfChars_replicate_zero_append, natChars]
    rw [digitsOfChars_map_digitChar
      (fun d hd => Nat.digits_lt_base (by norm_num) (List.mem_reverse.mp hd))]
    rfl
  have hdslen : (List.replicate (6 - (natChars f).length) 0
      ++ (Nat.digits 10 f).reverse).length = 6 := by
    rw [List.length_append, List.length_replicate, List.length_reverse, ← hlen]
    omega
  have hval : Nat.ofDigits 10 (List.replicate (6 - (natChars f).length) 0
      ++ (Nat.digits 10 f).reverse).reverse = f := by
    rw [List.reverse_append, List.reverse_replicate, List.reverse_reverse]
    rw [Nat.ofDigits_append, Nat.ofDigits_digits, ofDigits_replicate_zero]
    simp
  have hnonempty : (List.replicate (6 - (natChars f).length) 0
      ++ (Nat.digits 10 f).reverse) ≠ [] := by
    intro hc
    rw [hc] at hdslen
    simp at hdslen
  simp only [parseTs, hsplit, parseNatMSB_fmtNatChars, hdigs]
  rw [if_pos ⟨hnonempty, le_of_eq hdslen⟩]
  rw [hdslen, hval]
  norm_num

theorem parseTs_fmtTimestamp (v : Nat) : parseTs (fmtTimestamp v) = some v := by
  rw [fmtTimestamp, parseTs_fmt_general _ _ (Nat.mod_lt _ (by norm_num))]
  congr 1
  omega

theorem expiration_make_image_id (digest : List Char) (now ttl : Nat)
    (hd : '_' ∉ digest) :
    expiration (make_image_id digest now ttl) = some (now + ttl * 1000000) := by
  have hsplit : splitOnChar '_' (make_image_id digest now ttl)
      = [digest, fmtTimestamp (now + ttl * 1000000)] := by
    rw [make_image_id, splitOnChar_append _ hd,
      splitOnChar_not_mem (underscore_not_mem_fmtTimestamp _)]
  simp only [expiration, hsplit]
  exact parseTs_fmtTimestamp _

/-- **C5.**  Decoding the identifier produced by
`make_image_id digest now ttl` recovers the intended expiry instant
`now + ttl` exactly at the model's clock resolution (microseconds): the
digest of `sha256(...).hexdigest()` never contains the separator `_`,
which is the hypothesis `hd`.  And decoding any malformed token — any
identifier on which `expiration` fails — always reports invalid
(`none`), which `is_expired` treats as expired (`true`), for every value
of the clock. -/
theorem C5_decode_encode (digest : List Char) (now ttl : Nat)
    (hd : '_' ∉ digest) :
    expiration (make_image_id digest now ttl) = some (now + ttl * 1000000)
    ∧ (∀ id t0, expiration id = none → is_expired id t0 = true) :=
  ⟨expiration_make_image_id digest now ttl hd,
    fun _ _ h => by simp [is_expired, h]⟩

theorem C5_decode_encode_witness :
    '_' ∉ ['a', 'b']
    ∧ expiration (make_image_id ['a', 'b'] 5 1) = some 1000005
    ∧ expiration ['x'] = none
    ∧ is_expired ['x'] 0 = true :=
  ⟨by decide, (C5_decode_encode ['a', 'b'] 5 1 (by decide)).1,
    by rfl, (C5_decode_encode ['a', 'b'] 5 1 (by decide)).2 ['x'] 0 (by rfl)⟩
